import Mathlib

set_option maxHeartbeats 1000000

/- Verification development for the concurrent word-guessing game server
   (server.c).  The shared game state, the guess-application step of the
   guesser handler, the word installation step of the wordmaster handler,
   the scheduler reset, and the score persistence layer are embedded as
   executable Lean definitions, translated from the C source.  The line
   protocol is modelled at the level of received lines (newline-terminated,
   carriage returns already stripped by recv_line). -/

/-- Phases of the game, mirroring game_phase_t in server.c. -/
inductive GamePhase
  | WaitingPlayers
  | WaitingWord
  | InProgress
  | GameOver
deriving DecidableEq

/-- Result classification of a single guess, mirroring the string
constants CORRECT / PRESENT / ABSENT in child_guesser_loop. -/
inductive GuessResult
  | CORRECT
  | PRESENT
  | ABSENT
deriving DecidableEq

/-- The shared game state (shared_t in server.c), restricted to the fields
the verified claims are about.  The C array score[MAX_PLAYERS] is used only
at indices 1 and 2 (the guessers), modelled as score1 and score2.  Words
and the display mask are character lists; the C code keeps them as
NUL-terminated char arrays of length WORD_LEN = 5. -/
structure GameState where
  phase : GamePhase
  currentTurn : Nat
  positionIdx : Nat
  passNum : Nat
  score1 : Nat
  score2 : Nat
  secretWord : List Char
  display : List Char
  gameNumber : Nat
deriving DecidableEq

/-- Uppercase normalization of one character, as done by the C handlers
with the expression (c - 'a' + 'A') guarded by a lowercase range check. -/
def upch (c : Char) : Char :=
  if 'a' ≤ c ∧ c ≤ 'z' then Char.ofNat (c.toNat - 'a'.toNat + 'A'.toNat) else c

/-- Correctness test of a guess: server.c line 720,
(ch == secret_word[pos_before]). -/
def guessCorrect (w : List Char) (pos : Nat) (c : Char) : Bool :=
  c == w.getD pos ' '

/-- Presence test of a guess: server.c lines 722-726, a loop over all five
indices of the secret word looking for the guessed character. -/
def guessPresent (w : List Char) (c : Char) : Bool :=
  (List.range 5).any fun k => w.getD k ' ' == c

/-- Three-way result computed for a guess, server.c line 727:
correct then present then absent. -/
def classify (w : List Char) (pos : Nat) (c : Char) : GuessResult :=
  if guessCorrect w pos c then GuessResult.CORRECT
  else if guessPresent w c then GuessResult.PRESENT
  else GuessResult.ABSENT

/-- is_word_revealed_locked in server.c: the display mask holds no
placeholder in any of its five positions. -/
def wordRevealed (d : List Char) : Bool :=
  (List.range 5).all fun i => !(d.getD i ' ' == '_')

/-- is_valid_word in server.c: exactly five characters, all in A..Z. -/
def is_valid_word (w : List Char) : Bool :=
  (w.length == 5) && w.all fun c => decide ('A' ≤ c) && decide (c ≤ 'Z')

/-- Reveal-and-score stage of applying a guess, server.c lines 729-732:
if the guess is correct the guessing player's score is incremented and the
display position is set to the secret letter. -/
def applyReveal (s : GameState) (playerId : Nat) (c : Char) : GameState :=
  if guessCorrect s.secretWord s.positionIdx c then
    { s with
      score1 := if playerId = 1 then s.score1 + 1 else s.score1
      score2 := if playerId = 2 then s.score2 + 1 else s.score2
      display := s.display.set s.positionIdx (s.secretWord.getD s.positionIdx ' ') }
  else s

/-- Unconditional advance stage, server.c lines 734-739: increment the
position and on reaching WORD_LEN wrap to 0 and bump the pass counter. -/
def advancePos (s : GameState) : GameState :=
  if s.positionIdx + 1 ≥ 5 then
    { s with positionIdx := 0, passNum := s.passNum + 1 }
  else
    { s with positionIdx := s.positionIdx + 1 }

/-- End-of-game check and turn swap, server.c lines 741-747: game over when
the word is fully revealed or five passes are spent, otherwise the turn
moves to the other guesser. -/
def finishGuess (s : GameState) (playerId : Nat) : GameState :=
  if wordRevealed s.display = true ∨ s.passNum ≥ 5 then
    { s with phase := GamePhase.GameOver }
  else
    { s with currentTurn := if playerId = 1 then 2 else 1 }

/-- Full effect on the shared state of one applied guess, server.c
lines 717-750 of child_guesser_loop. -/
def applyGuess (s : GameState) (playerId : Nat) (c : Char) : GameState :=
  finishGuess (advancePos (applyReveal s playerId c)) playerId

/-- Word installation by the wordmaster handler, server.c lines 601-610:
store the secret word, rezero position and pass, give the turn to
guesser 1 and move to InProgress.  Scores and display are not written. -/
def installWord (s : GameState) (w : List Char) : GameState :=
  { s with
    secretWord := w
    positionIdx := 0
    passNum := 0
    currentTurn := 1
    phase := GamePhase.InProgress }

/-- Scheduler transition out of WaitingPlayers, server.c lines 442-450:
once all three players are connected the phase becomes WaitingWord, the
game counter is bumped and the wordmaster gate is opened. -/
def startGameState (s : GameState) : GameState :=
  { s with
    phase := GamePhase.WaitingWord
    currentTurn := 0
    gameNumber := s.gameNumber + 1 }

/-- Scheduler reaction to a guesser disconnect during a match, server.c
lines 465-470: the phase is forced to GameOver. -/
def forceGameOver (s : GameState) : GameState :=
  { s with phase := GamePhase.GameOver }

/-- Scheduler GameOver branch, server.c lines 493-498 together with
reset_game_state_locked (lines 423-433): per-match fields are cleared, the
secret word is emptied and the phase returns to WaitingWord. -/
def resetToWaitingWord (s : GameState) : GameState :=
  { s with
    positionIdx := 0
    score1 := 0
    score2 := 0
    display := List.replicate 5 '_'
    currentTurn := 0
    passNum := 0
    secretWord := []
    phase := GamePhase.WaitingWord }

/-- Freshly created shared state, shm_init_or_attach lines 292-329:
WaitingPlayers phase, zeroed counters and scores, empty secret word and an
all-placeholder display mask. -/
def initState : GameState :=
  { phase := GamePhase.WaitingPlayers
    currentTurn := 0
    positionIdx := 0
    passNum := 0
    score1 := 0
    score2 := 0
    secretWord := []
    display := List.replicate 5 '_'
    gameNumber := 0 }

/-- One mutation of the shared game state by the scheduler or a handler.
The side conditions are the guards the C code checks under the game mutex
before performing the mutation: the guesser applies a guess only when the
phase is InProgress and the turn is its own, and only with a letter the
read loop validated into A..Z. -/
inductive Step : GameState → GameState → Prop
  | start (s : GameState) (h : s.phase = GamePhase.WaitingPlayers) :
      Step s (startGameState s)
  | install (s : GameState) (w : List Char) (h : s.phase = GamePhase.WaitingWord)
      (hw : is_valid_word w = true) : Step s (installWord s w)
  | guess (s : GameState) (p : Nat) (c : Char) (h : s.phase = GamePhase.InProgress)
      (ht : s.currentTurn = p) (hp : p = 1 ∨ p = 2) (hc : 'A' ≤ c ∧ c ≤ 'Z') :
      Step s (applyGuess s p c)
  | disconnect (s : GameState) (h : s.phase = GamePhase.InProgress) :
      Step s (forceGameOver s)
  | reset (s : GameState) (h : s.phase = GamePhase.GameOver) :
      Step s (resetToWaitingWord s)

/-- States reachable from the freshly initialized shared state. -/
def Reachable (s : GameState) : Prop :=
  Relation.ReflTransGen Step initState s

/-- Every display position is either still hidden or shows the secret
letter of that same position. -/
def displaySound (s : GameState) : Prop :=
  ∀ i, i < 5 →
    s.display.getD i ' ' = '_' ∨ s.display.getD i ' ' = s.secretWord.getD i ' '

/-- State invariant maintained by every transition: the display mask keeps
its length, an in-progress match has a well-formed secret word and in-range
position and pass counters, phases that precede a match keep zero scores
and a blank mask, and the mask never shows a wrong letter. -/
def StateInv (s : GameState) : Prop :=
  s.display.length = 5 ∧
  (s.phase = GamePhase.InProgress →
    s.secretWord.length = 5 ∧ (∀ c ∈ s.secretWord, 'A' ≤ c ∧ c ≤ 'Z') ∧
    s.positionIdx ≤ 4 ∧ s.passNum ≤ 4) ∧
  ((s.phase = GamePhase.WaitingPlayers ∨ s.phase = GamePhase.WaitingWord) →
    s.score1 = 0 ∧ s.score2 = 0 ∧ s.display = List.replicate 5 '_') ∧
  displaySound s

/-- One persisted row of the score table (score_entry_t in server.c):
a name of at most NAME_LEN - 1 = 31 characters and a cumulative win
count. -/
structure ScoreEntry where
  name : List Char
  wins : Int
deriving DecidableEq

/-- The in-memory score table, score_table[MAX_PLAYERS] with
MAX_PLAYERS = 3; slots 1 and 2 are the guessers, slot 0 is unused by
save. -/
structure ScoreTable where
  e0 : ScoreEntry
  e1 : ScoreEntry
  e2 : ScoreEntry
deriving DecidableEq

/-- Little-endian decimal digits of a positive number, with fuel (the
number itself suffices); building block of the fprintf %d model. -/
def renderNatAux : Nat → Nat → List Char
  | 0, _ => []
  | _ + 1, 0 => []
  | f + 1, n + 1 => Nat.digitChar ((n + 1) % 10) :: renderNatAux f ((n + 1) / 10)

/-- Decimal rendering of a natural number as printed by fprintf %d. -/
def renderNat (n : Nat) : List Char :=
  if n = 0 then ['0'] else (renderNatAux n n).reverse

/-- Decimal rendering of an int as printed by fprintf %d. -/
def renderInt (i : Int) : List Char :=
  if i < 0 then '-' :: renderNat i.natAbs else renderNat i.toNat

/-- Value of a decimal digit string, most significant digit first. -/
def parseNatDigits (l : List Char) : Nat :=
  l.foldl (fun a c => a * 10 + (c.toNat - 48)) 0

/-- Whole-token integer parse modelling fscanf %d: an optional minus sign
followed by decimal digits.  fscanf consumes a maximal numeric prefix of
the input; the tokens this development feeds it are entirely numeric or
start non-numeric, where the two semantics agree. -/
def parseIntTok (l : List Char) : Option Int :=
  match l with
  | [] => none
  | c :: ds =>
      if c = '-' then
        if ds ≠ [] ∧ ds.all (fun x => decide ('0' ≤ x) && decide (x ≤ '9')) then
          some (-(parseNatDigits ds : Int))
        else none
      else
        if (c :: ds).all (fun x => decide ('0' ≤ x) && decide (x ≤ '9')) then
          some ((parseNatDigits (c :: ds) : Int))
        else none

/-- Whitespace as skipped by fscanf conversions; scores_save only emits
spaces and newlines. -/
def isWS (c : Char) : Bool :=
  (c == ' ') || (c == '\n') || (c == '\t') || (c == '\r')

/-- Accumulator pass splitting a character stream into maximal
non-whitespace tokens, the way repeated fscanf conversions consume it. -/
def tokenizeAux : List Char → List Char → List (List Char)
  | [], acc => if acc = [] then [] else [acc.reverse]
  | c :: cs, acc =>
      if isWS c then
        if acc = [] then tokenizeAux cs [] else acc.reverse :: tokenizeAux cs []
      else tokenizeAux cs (c :: acc)

/-- Token stream of a score file. -/
def tokenize (l : List Char) : List (List Char) := tokenizeAux l []

/-- Row store of scores_load, guarded by the id range check
(pid >= 0 && pid < MAX_PLAYERS, lines 225-229). -/
def storeEntry (t : ScoreTable) (pid : Int) (wins : Int) (nm : List Char) : ScoreTable :=
  if pid = 0 then { t with e0 := { name := nm, wins := wins } }
  else if pid = 1 then { t with e1 := { name := nm, wins := wins } }
  else if pid = 2 then { t with e2 := { name := nm, wins := wins } }
  else t

/-- The fscanf loop of scores_load (line 224): consume (id, wins, name)
triples until a conversion fails or the stream runs out; %31s keeps at
most 31 characters of the name token. -/
def loadTokens : List (List Char) → ScoreTable → ScoreTable
  | tp :: tw :: tn :: rest, t =>
      match parseIntTok tp, parseIntTok tw with
      | some pid, some wins => loadTokens rest (storeEntry t pid wins (tn.take 31))
      | _, _ => t
  | _, t => t

/-- Default table installed by scores_load before reading the file
(lines 201-207): zero wins and placeholder names for the guesser slots. -/
def defaultTable : ScoreTable :=
  { e0 := { name := [], wins := 0 }
    e1 := { name := "GuesserA".toList, wins := 0 }
    e2 := { name := "GuesserB".toList, wins := 0 } }

/-- scores_load (lines 198-234): defaults, then the parsed file contents;
none models a missing file, which is created empty. -/
def scores_load (file : Option (List Char)) : ScoreTable :=
  match file with
  | none => defaultTable
  | some content => loadTokens (tokenize content) defaultTable

/-- Name written by scores_save for a slot: the stored name, or the
placeholder when it is empty (line 247). -/
def saveName (pid : Nat) (nm : List Char) : List Char :=
  if nm = [] then (if pid = 1 then "GuesserA".toList else "GuesserB".toList) else nm

/-- One fprintf("%d %d %s\n") line of scores_save, with the rest of the
file appended. -/
def entryLine (pid : Nat) (e : ScoreEntry) (rest : List Char) : List Char :=
  renderNat pid ++ ' ' :: (renderInt e.wins ++ ' ' :: (saveName pid e.name ++ '\n' :: rest))

/-- scores_save (lines 236-252): the whole two-line artifact rewritten
from the current table, slots 1 and 2. -/
def scores_save (t : ScoreTable) : List Char :=
  entryLine 1 t.e1 (entryLine 2 t.e2 [])

/-- Winner computation at game over, lines 786-788: strictly higher score
wins, equality is a draw (0). -/
def computeWinner (s1 s2 : Nat) : Nat :=
  if s1 > s2 then 1 else if s2 > s1 then 2 else 0

/-- Wins bump and name refresh for the winning slot, lines 792-798: the
stored name is replaced by the live player name when one is known
(nonempty), truncated to NAME_LEN - 1 characters as strncpy does. -/
def updateSlot (e : ScoreEntry) (live : List Char) : ScoreEntry :=
  { wins := e.wins + 1
    name := if live ≠ [] then live.take 31 else e.name }

/-- Persistent-score update of a completed game, lines 785-799: only the
winning slot is touched, nothing on a draw. -/
def gameOverUpdate (s1 s2 : Nat) (live1 live2 : List Char) (t : ScoreTable) : ScoreTable :=
  match computeWinner s1 s2 with
  | 1 => { t with e1 := updateSlot t.e1 live1 }
  | 2 => { t with e2 := updateSlot t.e2 live2 }
  | _ => t

/-- End-of-game persistence step, lines 785-801: update the table, then
rewrite the whole storage artifact from it. -/
def endGameStep (s1 s2 : Nat) (live1 live2 : List Char) (t : ScoreTable) :
    ScoreTable × List Char :=
  (gameOverUpdate s1 s2 live1 live2 t, scores_save (gameOverUpdate s1 s2 live1 live2 t))

/-- Replies of the wordmaster receive loop (lines 576-617). -/
inductive WMReply
  | ok
  | errWord
  | errLine
deriving DecidableEq

/-- Candidate word extracted from a WORD line, lines 588-594: snprintf
into a six-byte buffer keeps only the first five characters after the tag,
which are then uppercased in place. -/
def normWord (l : List Char) : List Char :=
  ((l.drop 5).take 5).map upch

/-- Wordmaster receive loop (lines 576-617): a line either carries the
WORD tag and a valid candidate (install it, reply OK, stop), carries the
tag with an invalid candidate (reply ERR, keep state, continue), or is
any other line (reply ERR, keep state, continue). -/
def wordLoop (s : GameState) : List (List Char) → List WMReply × GameState
  | [] => ([], s)
  | l :: rest =>
      if l.take 5 = "WORD ".toList then
        if is_valid_word (normWord l) then ([WMReply.ok], installWord s (normWord l))
        else ((WMReply.errWord :: (wordLoop s rest).1), (wordLoop s rest).2)
      else ((WMReply.errLine :: (wordLoop s rest).1), (wordLoop s rest).2)

/-- Replies of the guesser read loop (lines 679-701). -/
inductive GuessReply
  | accept (c : Char)
  | errLetter
  | errLine
deriving DecidableEq

/-- One line of the guesser read loop, lines 692-700: a line is accepted
exactly when it starts with the GUESS tag followed by at least one
character whose first character uppercases into A..Z; that character
becomes the guess and the rest of the line is ignored. -/
def guessLineStep (l : List Char) : GuessReply :=
  if l.take 6 = "GUESS ".toList ∧ l.drop 6 ≠ [] then
    if 'A' ≤ upch ((l.drop 6).headD ' ') ∧ upch ((l.drop 6).headD ' ') ≤ 'Z' then
      GuessReply.accept (upch ((l.drop 6).headD ' '))
    else GuessReply.errLetter
  else GuessReply.errLine

/-- Guesser read loop (lines 679-701): reply ERR and keep reading until a
line is accepted; the accepted letter is the one later applied to the
game state. -/
def guessReadLoop : List (List Char) → List GuessReply × Option Char
  | [] => ([], none)
  | l :: rest =>
      match guessLineStep l with
      | GuessReply.accept c => ([GuessReply.accept c], some c)
      | r => ((r :: (guessReadLoop rest).1), (guessReadLoop rest).2)

/-- The word ABCDE used by the concrete runs. -/
def wordABCDE : List Char := ['A', 'B', 'C', 'D', 'E']

/-- Concrete run: all three players connected, match counter bumped. -/
def stW1 : GameState := startGameState initState

/-- Concrete run: the wordmaster installed ABCDE. -/
def stW2 : GameState := installWord stW1 wordABCDE

/-- Concrete run: guesser 1 reveals position 0. -/
def stW3 : GameState := applyGuess stW2 1 'A'

/-- Concrete run: guesser 2 misses at position 1. -/
def stW4 : GameState := applyGuess stW3 2 'Z'

/-- Concrete run: guesser 1 misses at position 2. -/
def stW5 : GameState := applyGuess stW4 1 'Z'

/-- Concrete run: guesser 2 misses at position 3. -/
def stW6 : GameState := applyGuess stW5 2 'Z'

/-- Concrete run: after one full pass the display shows A____ and
position 0 comes around again, with guesser 2 to move. -/
def stW7 : GameState := applyGuess stW6 1 'Z'

/-- A WaitingWord state with a nonzero leftover score, exercising what
the wordmaster installation step does and does not write. -/
def cexWW : GameState :=
  { phase := GamePhase.WaitingWord
    currentTurn := 0
    positionIdx := 0
    passNum := 0
    score1 := 3
    score2 := 0
    secretWord := []
    display := List.replicate 5 '_'
    gameNumber := 1 }

/-- A score table whose slot-1 name contains a space, as the free-text
NAME command permits. -/
def cexTable : ScoreTable :=
  { e0 := { name := [], wins := 0 }
    e1 := { name := ['A', ' ', 'B'], wins := 2 }
    e2 := { name := ['B', 'o', 'b'], wins := 1 } }

theorem valid_word_spec (w : List Char) (hw : is_valid_word w = true) :
    w.length = 5 ∧ ∀ c ∈ w, 'A' ≤ c ∧ c ≤ 'Z' := by
  simp only [is_valid_word, Bool.and_eq_true, beq_iff_eq, List.all_eq_true,
    decide_eq_true_eq] at hw
  exact ⟨hw.1, fun c hc => (hw.2 c hc)⟩

theorem getD_replicate_blank (i : Nat) (hi : i < 5) :
    (List.replicate 5 '_').getD i ' ' = '_' := by
  interval_cases i <;> rfl

theorem stateInv_init : StateInv initState := by
  refine ⟨rfl, ?_, ?_, ?_⟩
  · intro h; exact absurd h (by decide)
  · intro _; exact ⟨rfl, rfl, rfl⟩
  · intro i hi; exact Or.inl (getD_replicate_blank i hi)


theorem getD_set_self (l : List Char) (i : Nat) (a : Char) (h : i < l.length) :
    (l.set i a).getD i ' ' = a := by
  simp [List.getD_eq_getElem?_getD, List.getElem?_set_self, h]

theorem getD_set_other (l : List Char) (i j : Nat) (a : Char) (h : i ≠ j) :
    (l.set i a).getD j ' ' = l.getD j ' ' := by
  simp [List.getD_eq_getElem?_getD, List.getElem?_set_ne h]

theorem applyReveal_cases (s : GameState) (p : Nat) (c : Char) :
    (guessCorrect s.secretWord s.positionIdx c = true ∧
      applyReveal s p c =
        { s with
          score1 := if p = 1 then s.score1 + 1 else s.score1
          score2 := if p = 2 then s.score2 + 1 else s.score2
          display := s.display.set s.positionIdx (s.secretWord.getD s.positionIdx ' ') }) ∨
    (guessCorrect s.secretWord s.positionIdx c = false ∧ applyReveal s p c = s) := by
  unfold applyReveal
  split
  · exact Or.inl ⟨by assumption, rfl⟩
  · rename_i hx
    exact Or.inr ⟨by simpa using hx, rfl⟩

theorem advancePos_cases (s : GameState) :
    (s.positionIdx + 1 ≥ 5 ∧
      advancePos s = { s with positionIdx := 0, passNum := s.passNum + 1 }) ∨
    (s.positionIdx + 1 < 5 ∧
      advancePos s = { s with positionIdx := s.positionIdx + 1 }) := by
  unfold advancePos
  split
  · exact Or.inl ⟨by assumption, rfl⟩
  · rename_i hx
    exact Or.inr ⟨by omega, rfl⟩

theorem finishGuess_cases (s : GameState) (p : Nat) :
    ((wordRevealed s.display = true ∨ s.passNum ≥ 5) ∧
      finishGuess s p = { s with phase := GamePhase.GameOver }) ∨
    (¬(wordRevealed s.display = true ∨ s.passNum ≥ 5) ∧
      finishGuess s p = { s with currentTurn := if p = 1 then 2 else 1 }) := by
  unfold finishGuess
  split
  · exact Or.inl ⟨by assumption, rfl⟩
  · exact Or.inr ⟨by assumption, rfl⟩

theorem stateInv_applyGuess (s : GameState) (p : Nat) (c : Char)
    (h : s.phase = GamePhase.InProgress) (hlen : s.display.length = 5)
    (hl5 : s.secretWord.length = 5)
    (hub : ∀ ch ∈ s.secretWord, 'A' ≤ ch ∧ ch ≤ 'Z')
    (hpos : s.positionIdx ≤ 4) (hds : displaySound s) :
    StateInv (applyGuess s p c) := by
  have hAc := applyReveal_cases s p c
  have fA1 : (applyReveal s p c).display.length = 5 := by
    rcases hAc with ⟨_, hA⟩ | ⟨_, hA⟩ <;> rw [hA] <;> simp [hlen]
  have fA2 : (applyReveal s p c).secretWord = s.secretWord := by
    rcases hAc with ⟨_, hA⟩ | ⟨_, hA⟩ <;> rw [hA]
  have fA3 : (applyReveal s p c).positionIdx = s.positionIdx := by
    rcases hAc with ⟨_, hA⟩ | ⟨_, hA⟩ <;> rw [hA]
  have fA4 : (applyReveal s p c).phase = s.phase := by
    rcases hAc with ⟨_, hA⟩ | ⟨_, hA⟩ <;> rw [hA]
  have fA5 : displaySound (applyReveal s p c) := by
    rcases hAc with ⟨hcor, hA⟩ | ⟨_, hA⟩
    · rw [hA]
      intro i hi
      show (s.display.set s.positionIdx (s.secretWord.getD s.positionIdx ' ')).getD i ' ' = '_' ∨
        (s.display.set s.positionIdx (s.secretWord.getD s.positionIdx ' ')).getD i ' ' =
          s.secretWord.getD i ' '
      by_cases hip2 : s.positionIdx = i
      · subst hip2
        right
        exact getD_set_self _ _ _ (by omega)
      · rw [getD_set_other _ _ _ _ hip2]
        exact hds i hi
    · rw [hA]; exact hds
  have hBc := advancePos_cases (applyReveal s p c)
  have fB1 : (advancePos (applyReveal s p c)).display = (applyReveal s p c).display := by
    rcases hBc with ⟨_, hB⟩ | ⟨_, hB⟩ <;> rw [hB]
  have fB2 : (advancePos (applyReveal s p c)).secretWord = s.secretWord := by
    rcases hBc with ⟨_, hB⟩ | ⟨_, hB⟩ <;> rw [hB] <;> exact fA2
  have fB3 : (advancePos (applyReveal s p c)).positionIdx ≤ 4 := by
    rcases hBc with ⟨_, hB⟩ | ⟨hlt, hB⟩ <;> rw [hB]
    · exact Nat.zero_le 4
    · show (applyReveal s p c).positionIdx + 1 ≤ 4
      omega
  have fB4 : (advancePos (applyReveal s p c)).phase = s.phase := by
    rcases hBc with ⟨_, hB⟩ | ⟨_, hB⟩ <;> rw [hB] <;> exact fA4
  have fB5 : displaySound (advancePos (applyReveal s p c)) := by
    intro i hi
    have := fA5 i hi
    rcases hBc with ⟨_, hB⟩ | ⟨_, hB⟩ <;> rw [hB] <;> exact this
  unfold applyGuess
  rcases finishGuess_cases (advancePos (applyReveal s p c)) p with ⟨hcnd, hF⟩ | ⟨hcnd, hF⟩ <;>
    rw [hF]
  · refine ⟨by rw [fB1]; exact fA1, ?_, ?_, ?_⟩
    · intro hph; exact absurd hph (by simp)
    · intro hph; rcases hph with hph | hph <;> simp at hph
    · intro i hi; exact fB5 i hi
  · have hplt : ¬((advancePos (applyReveal s p c)).passNum ≥ 5) :=
      fun hge => hcnd (Or.inr hge)
    refine ⟨by rw [fB1]; exact fA1, ?_, ?_, ?_⟩
    · intro _
      refine ⟨by rw [fB2]; exact hl5, ?_, fB3,
        by show (advancePos (applyReveal s p c)).passNum ≤ 4; omega⟩
      intro ch hch
      rw [fB2] at hch
      exact hub ch hch
    · intro hph
      have : (advancePos (applyReveal s p c)).phase = s.phase := fB4
      rcases hph with hph | hph <;> rw [show ({ advancePos (applyReveal s p c) with
          currentTurn := if p = 1 then 2 else 1 } : GameState).phase =
          (advancePos (applyReveal s p c)).phase from rfl, fB4, h] at hph <;> exact absurd hph (by simp)
    · intro i hi; exact fB5 i hi

theorem stateInv_step {s t : GameState} (hst : Step s t) (hs : StateInv s) : StateInv t := by
  obtain ⟨hlen, hip, hpre, hds⟩ := hs
  cases hst with
  | start h =>
      refine ⟨hlen, ?_, ?_, hds⟩
      · intro hph; exact absurd hph (by simp [startGameState])
      · intro _; exact hpre (Or.inl h)
  | install w h hw =>
      obtain ⟨hwl, hwu⟩ := valid_word_spec w hw
      refine ⟨hlen, ?_, ?_, ?_⟩
      · intro _
        exact ⟨hwl, hwu, by simp [installWord], by simp [installWord]⟩
      · intro hph
        rcases hph with hph | hph <;> simp [installWord] at hph
      · intro i hi
        left
        have hblank : s.display = List.replicate 5 '_' := (hpre (Or.inr h)).2.2
        show s.display.getD i ' ' = '_'
        rw [hblank]
        exact getD_replicate_blank i hi
  | guess p c h ht hp hc =>
      obtain ⟨hl5, hub, hpos, hpass⟩ := hip h
      exact stateInv_applyGuess s p c h hlen hl5 hub hpos hds
  | disconnect h =>
      refine ⟨hlen, ?_, ?_, hds⟩
      · intro hph; exact absurd hph (by simp [forceGameOver])
      · intro hph
        rcases hph with hph | hph <;> simp [forceGameOver] at hph
  | reset h =>
      refine ⟨by simp [resetToWaitingWord], ?_, ?_, ?_⟩
      · intro hph; exact absurd hph (by simp [resetToWaitingWord])
      · intro _; exact ⟨rfl, rfl, rfl⟩
      · intro i hi
        left
        show (List.replicate 5 '_').getD i ' ' = '_'
        exact getD_replicate_blank i hi

theorem reachable_stateInv {s : GameState} (h : Reachable s) : StateInv s := by
  induction h with
  | refl => exact stateInv_init
  | tail _ hbc ih => exact stateInv_step hbc ih

/-- Claim C1: for an in-progress state with secret word w, position pos and
uppercase guess c, the computed result is CORRECT exactly when c is the
letter of w at pos; PRESENT exactly when it is not that letter but occurs
at some other index of w; ABSENT exactly otherwise.  The three
characterizing conditions are mutually exclusive and exhaustive, so the
three outcomes are as well. -/
theorem claim_C1 (w : List Char) (pos : Nat) (c : Char)
    (hw : w.length = 5) (hpos : pos < 5) :
    (classify w pos c = GuessResult.CORRECT ↔ c = w.getD pos ' ') ∧
    (classify w pos c = GuessResult.PRESENT ↔
      c ≠ w.getD pos ' ' ∧ ∃ k, k < 5 ∧ k ≠ pos ∧ w.getD k ' ' = c) ∧
    (classify w pos c = GuessResult.ABSENT ↔
      c ≠ w.getD pos ' ' ∧ ∀ k, k < 5 → k ≠ pos → w.getD k ' ' ≠ c) := by
  have hpres : guessPresent w c = true ↔ ∃ k, k < 5 ∧ w.getD k ' ' = c := by
    simp [guessPresent, List.any_eq_true, List.mem_range]
  by_cases hcor : c = w.getD pos ' '
  · have hc1 : guessCorrect w pos c = true := by
      simp only [guessCorrect, hcor, beq_self_eq_true]
    have hcl : classify w pos c = GuessResult.CORRECT := by simp [classify, hc1]
    refine ⟨iff_of_true hcl hcor, ?_, ?_⟩
    · rw [hcl]
      constructor
      · intro hx
        exact absurd hx (by decide)
      · rintro ⟨hne, -⟩
        exact absurd hcor hne
    · rw [hcl]
      constructor
      · intro hx
        exact absurd hx (by decide)
      · rintro ⟨hne, -⟩
        exact absurd hcor hne
  · have hc1 : guessCorrect w pos c = false := by
      simp only [guessCorrect]
      exact beq_eq_false_iff_ne.mpr hcor
    by_cases hp2 : guessPresent w c = true
    · have hcl : classify w pos c = GuessResult.PRESENT := by simp [classify, hc1, hp2]
      obtain ⟨k, hk5, hkc⟩ := hpres.mp hp2
      have hkpos : k ≠ pos := fun he => hcor (he ▸ hkc).symm
      refine ⟨?_, ?_, ?_⟩
      · rw [hcl]
        exact iff_of_false (by decide) hcor
      · rw [hcl]
        exact iff_of_true rfl ⟨hcor, k, hk5, hkpos, hkc⟩
      · rw [hcl]
        refine iff_of_false (by decide) ?_
        rintro ⟨-, habs⟩
        exact habs k hk5 hkpos hkc
    · have hp2f : guessPresent w c = false := by simpa using hp2
      have habs : ∀ k, k < 5 → w.getD k ' ' ≠ c :=
        fun k hk hkc => hp2 (hpres.mpr ⟨k, hk, hkc⟩)
      have hcl : classify w pos c = GuessResult.ABSENT := by simp [classify, hc1, hp2f]
      refine ⟨?_, ?_, ?_⟩
      · rw [hcl]
        exact iff_of_false (by decide) hcor
      · rw [hcl]
        refine iff_of_false (by decide) ?_
        rintro ⟨-, k, hk5, hkpos, hkc⟩
        exact habs k hk5 hkc
      · rw [hcl]
        exact iff_of_true rfl ⟨hcor, fun k hk _ => habs k hk⟩

/-- Witness for claim C1: the word CRANE with guess C at position 0 is
CORRECT, and guess E at position 1 is PRESENT. -/
theorem claim_C1_witness :
    classify ['C', 'R', 'A', 'N', 'E'] 0 'C' = GuessResult.CORRECT ∧
    classify ['C', 'R', 'A', 'N', 'E'] 1 'E' = GuessResult.PRESENT := by
  have h1 := claim_C1 ['C', 'R', 'A', 'N', 'E'] 0 'C' (by decide) (by decide)
  have h2 := claim_C1 ['C', 'R', 'A', 'N', 'E'] 1 'E' (by decide) (by decide)
  exact ⟨h1.1.mpr (by decide), h2.2.1.mpr ⟨by decide, 4, by decide, by decide, by decide⟩⟩

theorem applyGuess_desc (s : GameState) (p : Nat) (c : Char) :
    (applyGuess s p c).secretWord = s.secretWord ∧
    (applyGuess s p c).display = (applyReveal s p c).display ∧
    ((s.positionIdx + 1 ≥ 5 ∧ (applyGuess s p c).positionIdx = 0 ∧
        (applyGuess s p c).passNum = s.passNum + 1) ∨
      (s.positionIdx + 1 < 5 ∧ (applyGuess s p c).positionIdx = s.positionIdx + 1 ∧
        (applyGuess s p c).passNum = s.passNum)) ∧
    ((wordRevealed (applyGuess s p c).display = true ∨ (applyGuess s p c).passNum ≥ 5) →
      (applyGuess s p c).phase = GamePhase.GameOver) ∧
    (¬(wordRevealed (applyGuess s p c).display = true ∨ (applyGuess s p c).passNum ≥ 5) →
      (applyGuess s p c).phase = s.phase ∧
      (applyGuess s p c).currentTurn = (if p = 1 then 2 else 1)) := by
  have ha : (applyReveal s p c).positionIdx = s.positionIdx ∧
      (applyReveal s p c).passNum = s.passNum ∧
      (applyReveal s p c).phase = s.phase ∧
      (applyReveal s p c).secretWord = s.secretWord ∧
      (applyReveal s p c).currentTurn = s.currentTurn := by
    rcases applyReveal_cases s p c with ⟨_, hA⟩ | ⟨_, hA⟩ <;> rw [hA] <;>
      exact ⟨rfl, rfl, rfl, rfl, rfl⟩
  obtain ⟨a1, a2, a3, a4, a5⟩ := ha
  unfold applyGuess
  rcases advancePos_cases (applyReveal s p c) with ⟨hge, hB⟩ | ⟨hlt, hB⟩
  · rw [a1] at hge
    rcases finishGuess_cases (advancePos (applyReveal s p c)) p with ⟨hcnd, hF⟩ | ⟨hcnd, hF⟩ <;>
      rw [hB] at hcnd <;> rw [hF, hB]
    · exact ⟨a4, rfl, Or.inl ⟨hge, rfl, by rw [a2]⟩, fun _ => rfl,
        fun hn => absurd hcnd hn⟩
    · exact ⟨a4, rfl, Or.inl ⟨hge, rfl, by rw [a2]⟩, fun hcond => absurd hcond hcnd,
        fun _ => ⟨a3, rfl⟩⟩
  · rw [a1] at hlt
    rcases finishGuess_cases (advancePos (applyReveal s p c)) p with ⟨hcnd, hF⟩ | ⟨hcnd, hF⟩ <;>
      rw [hB] at hcnd <;> rw [hF, hB]
    · exact ⟨a4, rfl, Or.inr ⟨hlt, by rw [a1], a2⟩, fun _ => rfl,
        fun hn => absurd hcnd hn⟩
    · exact ⟨a4, rfl, Or.inr ⟨hlt, by rw [a1], a2⟩, fun hcond => absurd hcond hcnd,
        fun _ => ⟨a3, rfl⟩⟩

theorem reach_stW1 : Reachable stW1 :=
  Relation.ReflTransGen.single (Step.start initState rfl)

theorem reach_stW2 : Reachable stW2 :=
  Relation.ReflTransGen.tail reach_stW1 (Step.install stW1 wordABCDE rfl (by decide))

theorem reach_stW3 : Reachable stW3 :=
  Relation.ReflTransGen.tail reach_stW2
    (Step.guess stW2 1 'A' (by decide) (by decide) (Or.inl rfl) (by decide))

theorem reach_stW4 : Reachable stW4 :=
  Relation.ReflTransGen.tail reach_stW3
    (Step.guess stW3 2 'Z' (by decide) (by decide) (Or.inr rfl) (by decide))

theorem reach_stW5 : Reachable stW5 :=
  Relation.ReflTransGen.tail reach_stW4
    (Step.guess stW4 1 'Z' (by decide) (by decide) (Or.inl rfl) (by decide))

theorem reach_stW6 : Reachable stW6 :=
  Relation.ReflTransGen.tail reach_stW5
    (Step.guess stW5 2 'Z' (by decide) (by decide) (Or.inr rfl) (by decide))

theorem reach_stW7 : Reachable stW7 :=
  Relation.ReflTransGen.tail reach_stW6
    (Step.guess stW6 1 'Z' (by decide) (by decide) (Or.inl rfl) (by decide))

/-- Claim C2: after every applied guess, whatever its result, the position
advances by one, wrapping from the last position to 0 with a pass
increment; the phase becomes GameOver exactly when the display mask has no
placeholder left or the pass counter reached 5; otherwise the match stays
in progress and the turn swaps to the other guesser, so turns strictly
alternate absent a disconnect. -/
theorem claim_C2 (s : GameState) (p : Nat) (c : Char)
    (h : s.phase = GamePhase.InProgress) (hpos : s.positionIdx ≤ 4)
    (hpass : s.passNum ≤ 4) (hp : p = 1 ∨ p = 2) :
    (s.positionIdx + 1 = 5 →
      (applyGuess s p c).positionIdx = 0 ∧
      (applyGuess s p c).passNum = s.passNum + 1) ∧
    (s.positionIdx + 1 < 5 →
      (applyGuess s p c).positionIdx = s.positionIdx + 1 ∧
      (applyGuess s p c).passNum = s.passNum) ∧
    ((applyGuess s p c).phase = GamePhase.GameOver ↔
      wordRevealed (applyGuess s p c).display = true ∨ (applyGuess s p c).passNum = 5) ∧
    ((applyGuess s p c).phase ≠ GamePhase.GameOver →
      (applyGuess s p c).phase = GamePhase.InProgress ∧
      (applyGuess s p c).currentTurn = (if p = 1 then 2 else 1) ∧
      (applyGuess s p c).currentTurn ≠ p) := by
  obtain ⟨d1, d2, d3, d4, d5⟩ := applyGuess_desc s p c
  have hpassG : (applyGuess s p c).passNum ≤ 5 := by
    rcases d3 with ⟨_, _, hq⟩ | ⟨_, _, hq⟩ <;> omega
  refine ⟨?_, ?_, ?_, ?_⟩
  · intro h5
    rcases d3 with ⟨hge, hq1, hq2⟩ | ⟨hlt, _, _⟩
    · exact ⟨hq1, hq2⟩
    · omega
  · intro h5
    rcases d3 with ⟨hge, _, _⟩ | ⟨hlt, hq1, hq2⟩
    · omega
    · exact ⟨hq1, hq2⟩
  · constructor
    · intro hover
      by_cases hcond : wordRevealed (applyGuess s p c).display = true ∨
          (applyGuess s p c).passNum ≥ 5
      · rcases hcond with hrev | hge5
        · exact Or.inl hrev
        · exact Or.inr (by omega)
      · obtain ⟨hph, -⟩ := d5 hcond
        rw [h] at hph
        rw [hover] at hph
        exact absurd hph (by decide)
    · intro hcond
      apply d4
      rcases hcond with hrev | h5
      · exact Or.inl hrev
      · exact Or.inr (by omega)
  · intro hnot
    have hcond : ¬(wordRevealed (applyGuess s p c).display = true ∨
        (applyGuess s p c).passNum ≥ 5) := fun hcond => hnot (d4 hcond)
    obtain ⟨hph, hct⟩ := d5 hcond
    rw [h] at hph
    refine ⟨hph, hct, ?_⟩
    rcases hp with hp1 | hp1 <;> subst hp1 <;> simp [hct]

/-- Witness for claim C2: in the concrete in-progress state stW2 (word
ABCDE just installed), a wrong guess by guesser 1 moves the position from
0 to 1, keeps the pass counter, and hands the turn to guesser 2. -/
theorem claim_C2_witness :
    (applyGuess stW2 1 'X').positionIdx = stW2.positionIdx + 1 ∧
    (applyGuess stW2 1 'X').passNum = stW2.passNum ∧
    (applyGuess stW2 1 'X').currentTurn = 2 := by
  have h := claim_C2 stW2 1 'X' (by decide) (by decide) (by decide) (Or.inl rfl)
  obtain ⟨q1, q2⟩ := h.2.1 (by decide)
  have h4 := h.2.2.2 (by decide)
  exact ⟨q1, q2, by rw [h4.2.1]; decide⟩

/-- Claim C3: in every reachable InProgress state the position index and
pass counter are within [0,4]; applying a guess never leaves either field
out of bounds while the phase remains InProgress, and when the pass
counter reaches 5 the very same step sets the phase to GameOver. -/
theorem claim_C3 (s : GameState) (hr : Reachable s) :
    (s.phase = GamePhase.InProgress → s.positionIdx ≤ 4 ∧ s.passNum ≤ 4) ∧
    (∀ p c, ((applyGuess s p c).phase = GamePhase.InProgress →
        (applyGuess s p c).positionIdx ≤ 4 ∧ (applyGuess s p c).passNum ≤ 4) ∧
      ((applyGuess s p c).passNum = 5 →
        (applyGuess s p c).phase = GamePhase.GameOver)) := by
  obtain ⟨-, hip, -, -⟩ := reachable_stateInv hr
  refine ⟨fun h => ⟨(hip h).2.2.1, (hip h).2.2.2⟩, ?_⟩
  intro p c
  obtain ⟨d1, d2, d3, d4, d5⟩ := applyGuess_desc s p c
  constructor
  · intro hph
    by_cases hcond : wordRevealed (applyGuess s p c).display = true ∨
        (applyGuess s p c).passNum ≥ 5
    · rw [d4 hcond] at hph
      exact absurd hph (by decide)
    · have hpassb : ¬((applyGuess s p c).passNum ≥ 5) := fun hq => hcond (Or.inr hq)
      rcases d3 with ⟨_, hq1, _⟩ | ⟨hlt, hq1, _⟩ <;> constructor <;> omega
  · intro h5
    exact d4 (Or.inr (by omega))

/-- Witness for claim C3: the concrete reachable in-progress state stW2
has in-range counters, and a guess applied to it keeps them in range. -/
theorem claim_C3_witness :
    stW2.positionIdx ≤ 4 ∧ stW2.passNum ≤ 4 ∧
    (applyGuess stW2 1 'A').positionIdx ≤ 4 := by
  have h := claim_C3 stW2 reach_stW2
  obtain ⟨h1, h2⟩ := h.1 (by decide)
  exact ⟨h1, h2, ((h.2 1 'A').1 (by decide)).1⟩

theorem applyGuess_scores (s : GameState) (p : Nat) (c : Char) :
    (applyGuess s p c).score1 = (applyReveal s p c).score1 ∧
    (applyGuess s p c).score2 = (applyReveal s p c).score2 := by
  unfold applyGuess
  rcases advancePos_cases (applyReveal s p c) with ⟨_, hB⟩ | ⟨_, hB⟩ <;>
    rcases finishGuess_cases (advancePos (applyReveal s p c)) p with ⟨_, hF⟩ | ⟨_, hF⟩ <;>
    rw [hF, hB] <;> exact ⟨rfl, rfl⟩

/-- Counterexample to claim C4 as stated: the wordmaster installation step
does not write the per-game scores.  On a WaitingWord state carrying a
leftover score of 3 it leaves that score at 3 instead of resetting it
to 0. -/
theorem claim_C4_cex :
    cexWW.phase = GamePhase.WaitingWord ∧ is_valid_word wordABCDE = true ∧
    (installWord cexWW wordABCDE).score1 = 3 := by decide

/-- Claim C4 (amended): accepting a valid word in phase WaitingWord
installs the secret word, resets positionIndex and passNumber to 0, sets
currentTurn to 1 and flips the phase to InProgress in one atomic step.
The step does not write the per-game scores; instead, every reachable
WaitingWord state already has both scores at 0, so they are 0 after the
transition as well. -/
theorem claim_C4 (s : GameState) (w : List Char) (hr : Reachable s)
    (hph : s.phase = GamePhase.WaitingWord) (hw : is_valid_word w = true) :
    (installWord s w).secretWord = w ∧
    (installWord s w).positionIdx = 0 ∧
    (installWord s w).passNum = 0 ∧
    (installWord s w).currentTurn = 1 ∧
    (installWord s w).phase = GamePhase.InProgress ∧
    (installWord s w).score1 = s.score1 ∧
    (installWord s w).score2 = s.score2 ∧
    (installWord s w).score1 = 0 ∧
    (installWord s w).score2 = 0 := by
  obtain ⟨-, -, hpre, -⟩ := reachable_stateInv hr
  obtain ⟨h1, h2, -⟩ := hpre (Or.inr hph)
  exact ⟨rfl, rfl, rfl, rfl, rfl, rfl, rfl, h1, h2⟩

/-- Witness for claim C4 (amended) at the reachable WaitingWord state stW1
with the word ABCDE. -/
theorem claim_C4_witness :
    (installWord stW1 wordABCDE).phase = GamePhase.InProgress ∧
    (installWord stW1 wordABCDE).score1 = 0 := by
  have h := claim_C4 stW1 wordABCDE reach_stW1 rfl (by decide)
  exact ⟨h.2.2.2.2.1, h.2.2.2.2.2.2.2.1⟩

/-- Claim C9: display-mask soundness.  In every reachable state each of
the five display positions is either the placeholder or the secret letter
of that same position, so a revealed letter is never wrong; and any single
transition either leaves the display unchanged, resets it to all
placeholders (the between-games reset), or — on a correct guess only —
reveals the current position with the secret letter of that position. -/
theorem claim_C9 :
    (∀ s, Reachable s → ∀ i, i < 5 →
      s.display.getD i ' ' = '_' ∨ s.display.getD i ' ' = s.secretWord.getD i ' ') ∧
    (∀ s t, Step s t →
      t.display = s.display ∨ t.display = List.replicate 5 '_' ∨
      (∃ c, guessCorrect s.secretWord s.positionIdx c = true ∧
        t.display = s.display.set s.positionIdx (s.secretWord.getD s.positionIdx ' '))) := by
  constructor
  · intro s hr i hi
    obtain ⟨-, -, -, hds⟩ := reachable_stateInv hr
    exact hds i hi
  · intro s t hst
    cases hst with
    | start h => exact Or.inl rfl
    | install w h hw => exact Or.inl rfl
    | guess p c h ht hp hc =>
        obtain ⟨-, d2, -⟩ := applyGuess_desc s p c
        rcases applyReveal_cases s p c with ⟨hcor, hA⟩ | ⟨hcor, hA⟩
        · right; right
          refine ⟨c, hcor, ?_⟩
          rw [d2, hA]
        · left
          rw [d2, hA]
    | disconnect h => exact Or.inl rfl
    | reset h => exact Or.inr (Or.inl rfl)

/-- Witness for claim C9: in the reachable state stW3 (guesser 1 revealed
position 0 of ABCDE) every display position is sound; positions 0 and 1
are checked explicitly. -/
theorem claim_C9_witness :
    (stW3.display.getD 0 ' ' = '_' ∨ stW3.display.getD 0 ' ' = stW3.secretWord.getD 0 ' ') ∧
    (stW3.display.getD 1 ' ' = '_' ∨ stW3.display.getD 1 ' ' = stW3.secretWord.getD 1 ' ') :=
  ⟨claim_C9.1 stW3 reach_stW3 0 (by decide), claim_C9.1 stW3 reach_stW3 1 (by decide)⟩

/-- Claim C10: already-revealed positions are still played and still
score.  In a reachable in-progress state whose current position is
already revealed, the displayed letter is the secret letter, the guess
step with that letter is still enabled (the turn machinery never skips a
revealed position), the guess is classified CORRECT, and the guessing
player's per-game score is incremented again — so a score can exceed the
number of positions that guesser first revealed. -/
theorem claim_C10 (s : GameState) (p : Nat) (hr : Reachable s)
    (hph : s.phase = GamePhase.InProgress) (ht : s.currentTurn = p)
    (hp : p = 1 ∨ p = 2)
    (hrev : s.display.getD s.positionIdx ' ' ≠ '_') :
    s.display.getD s.positionIdx ' ' = s.secretWord.getD s.positionIdx ' ' ∧
    Step s (applyGuess s p (s.secretWord.getD s.positionIdx ' ')) ∧
    classify s.secretWord s.positionIdx (s.secretWord.getD s.positionIdx ' ') =
      GuessResult.CORRECT ∧
    (p = 1 → (applyGuess s p (s.secretWord.getD s.positionIdx ' ')).score1 = s.score1 + 1) ∧
    (p = 2 → (applyGuess s p (s.secretWord.getD s.positionIdx ' ')).score2 = s.score2 + 1) := by
  obtain ⟨hlen, hip, -, hds⟩ := reachable_stateInv hr
  obtain ⟨hl5, hub, hpos, hpass⟩ := hip hph
  have hply : s.positionIdx < 5 := by omega
  have hshow : s.display.getD s.positionIdx ' ' = s.secretWord.getD s.positionIdx ' ' := by
    rcases hds s.positionIdx hply with hq | hq
    · exact absurd hq hrev
    · exact hq
  have hplen : s.positionIdx < s.secretWord.length := by omega
  have hmem : s.secretWord.getD s.positionIdx ' ' ∈ s.secretWord := by
    rw [List.getD_eq_getElem?_getD, List.getElem?_eq_getElem hplen]
    exact List.getElem_mem hplen
  have hcZ := hub _ hmem
  have hcor : guessCorrect s.secretWord s.positionIdx
      (s.secretWord.getD s.positionIdx ' ') = true := by
    simp [guessCorrect]
  have hcl : classify s.secretWord s.positionIdx (s.secretWord.getD s.positionIdx ' ') =
      GuessResult.CORRECT := by
    unfold classify
    rw [hcor, if_pos rfl]
  refine ⟨hshow, Step.guess s p _ hph ht hp hcZ, hcl, ?_, ?_⟩
  · intro hp1
    subst hp1
    obtain ⟨e1, -⟩ := applyGuess_scores s 1 (s.secretWord.getD s.positionIdx ' ')
    rw [e1]
    rcases applyReveal_cases s 1 (s.secretWord.getD s.positionIdx ' ') with ⟨-, hA⟩ | ⟨hcf, -⟩
    · rw [hA]
      simp
    · rw [hcor] at hcf
      exact absurd hcf (by decide)
  · intro hp1
    subst hp1
    obtain ⟨-, e2⟩ := applyGuess_scores s 2 (s.secretWord.getD s.positionIdx ' ')
    rw [e2]
    rcases applyReveal_cases s 2 (s.secretWord.getD s.positionIdx ' ') with ⟨-, hA⟩ | ⟨hcf, -⟩
    · rw [hA]
      simp
    · rw [hcor] at hcf
      exact absurd hcf (by decide)

/-- Witness for claim C10: in the reachable state stW7 position 0 is
already revealed (by guesser 1 in the previous pass); guesser 2 guesses
the displayed letter, the step is enabled, and its score is incremented
although it first revealed nothing. -/
theorem claim_C10_witness :
    Step stW7 (applyGuess stW7 2 (stW7.secretWord.getD stW7.positionIdx ' ')) ∧
    (applyGuess stW7 2 (stW7.secretWord.getD stW7.positionIdx ' ')).score2 =
      stW7.score2 + 1 := by
  have h := claim_C10 stW7 2 reach_stW7 (by decide) (by decide) (Or.inr rfl) (by decide)
  exact ⟨h.2.1, h.2.2.2.2 rfl⟩

theorem wordLoop_cons (s : GameState) (l : List Char) (rest : List (List Char)) :
    wordLoop s (l :: rest) =
      if l.take 5 = "WORD ".toList then
        if is_valid_word (normWord l) then ([WMReply.ok], installWord s (normWord l))
        else ((WMReply.errWord :: (wordLoop s rest).1), (wordLoop s rest).2)
      else ((WMReply.errLine :: (wordLoop s rest).1), (wordLoop s rest).2) := rfl

/-- Counterexample to claim C5 as stated: the WORD payload ABCDEF is six
letters, not exactly five, yet the handler accepts it: the fixed-size
snprintf buffer truncates it to ABCDE, which validates, so the reply is OK
and the state moves to InProgress with secret word ABCDE instead of an ERR
with no state change. -/
theorem claim_C5_cex :
    (wordLoop stW1 ["WORD ABCDEF".toList]).1 = [WMReply.ok] ∧
    (wordLoop stW1 ["WORD ABCDEF".toList]).2 = installWord stW1 "ABCDE".toList ∧
    (wordLoop stW1 ["WORD ABCDEF".toList]).2 ≠ stW1 ∧
    ("WORD ABCDEF".toList.drop 5).length ≠ 5 := by decide

/-- Claim C5 (amended): a WORD input whose first five payload characters
after uppercase normalization do not form five letters A..Z (payload
shorter than five, or a non-letter among the first five) is answered ERR
and leaves the whole game state unchanged, as is any non-WORD line; a
subsequent valid WORD on the same connection still performs the normal
transition.  Payloads longer than five characters are truncated to their
first five by the receive buffer and accepted when those five are
letters. -/
theorem claim_C5 (s : GameState) (bad : List (List Char)) (v : List Char)
    (rest : List (List Char))
    (hbad : ∀ l ∈ bad, l.take 5 = "WORD ".toList → is_valid_word (normWord l) = false)
    (hv1 : v.take 5 = "WORD ".toList) (hv2 : is_valid_word (normWord v) = true) :
    (wordLoop s bad).2 = s ∧
    (wordLoop s bad).1.length = bad.length ∧
    (∀ r ∈ (wordLoop s bad).1, r ≠ WMReply.ok) ∧
    (wordLoop s (bad ++ v :: rest)).1 = (wordLoop s bad).1 ++ [WMReply.ok] ∧
    (wordLoop s (bad ++ v :: rest)).2 = installWord s (normWord v) := by
  induction bad with
  | nil =>
      refine ⟨rfl, rfl, by intro r hr; exact absurd hr (by simp [wordLoop]), ?_, ?_⟩
      · show (wordLoop s (v :: rest)).1 = (wordLoop s []).1 ++ [WMReply.ok]
        rw [wordLoop_cons, if_pos hv1, if_pos hv2]
        rfl
      · show (wordLoop s (v :: rest)).2 = installWord s (normWord v)
        rw [wordLoop_cons, if_pos hv1, if_pos hv2]
  | cons l ls ih =>
      have hbl := hbad l (List.mem_cons_self l ls)
      obtain ⟨i1, i2, i3, i4, i5⟩ := ih (fun q hq => hbad q (List.mem_cons_of_mem l hq))
      by_cases hl : l.take 5 = "WORD ".toList
      · have hinv : ¬(is_valid_word (normWord l) = true) := by
          rw [hbl hl]
          decide
        refine ⟨?_, ?_, ?_, ?_, ?_⟩
        · rw [wordLoop_cons, if_pos hl, if_neg hinv]
          exact i1
        · rw [wordLoop_cons, if_pos hl, if_neg hinv]
          simp only [List.length_cons, i2]
        · rw [wordLoop_cons, if_pos hl, if_neg hinv]
          intro r hr
          rcases List.mem_cons.mp hr with hr1 | hr1
          · rw [hr1]
            decide
          · exact i3 r hr1
        · show (wordLoop s (l :: (ls ++ v :: rest))).1 = _
          rw [wordLoop_cons, if_pos hl, if_neg hinv,
            wordLoop_cons, if_pos hl, if_neg hinv]
          simp only [List.cons_append, i4]
        · show (wordLoop s (l :: (ls ++ v :: rest))).2 = _
          rw [wordLoop_cons, if_pos hl, if_neg hinv]
          exact i5
      · refine ⟨?_, ?_, ?_, ?_, ?_⟩
        · rw [wordLoop_cons, if_neg hl]
          exact i1
        · rw [wordLoop_cons, if_neg hl]
          simp only [List.length_cons, i2]
        · rw [wordLoop_cons, if_neg hl]
          intro r hr
          rcases List.mem_cons.mp hr with hr1 | hr1
          · rw [hr1]
            decide
          · exact i3 r hr1
        · show (wordLoop s (l :: (ls ++ v :: rest))).1 = _
          rw [wordLoop_cons, if_neg hl, wordLoop_cons, if_neg hl]
          simp only [List.cons_append, i4]
        · show (wordLoop s (l :: (ls ++ v :: rest))).2 = _
          rw [wordLoop_cons, if_neg hl]
          exact i5

/-- Witness for claim C5 (amended): a too-short WORD and a non-WORD line
are both rejected without touching the state, and a following lowercase
valid word still starts the game with the normalized secret CRANE. -/
theorem claim_C5_witness :
    (wordLoop stW1 ["WORD AB".toList, "HELLO".toList]).2 = stW1 ∧
    (wordLoop stW1 ["WORD AB".toList, "HELLO".toList, "WORD crane".toList]).2 =
      installWord stW1 "CRANE".toList := by
  have h := claim_C5 stW1 ["WORD AB".toList, "HELLO".toList] ("WORD crane".toList) []
    (by decide) (by decide) (by decide)
  refine ⟨h.1, ?_⟩
  have h5 := h.2.2.2.2
  exact h5.trans (by decide)

theorem guessReadLoop_cons (l : List Char) (rest : List (List Char)) :
    guessReadLoop (l :: rest) =
      match guessLineStep l with
      | GuessReply.accept c => ([GuessReply.accept c], some c)
      | r => ((r :: (guessReadLoop rest).1), (guessReadLoop rest).2) := rfl

/-- Counterexample to claim C6 as stated: the GUESS payload AB carries two
characters, not exactly one, yet the line is accepted with the guess A
(the handler reads only the first payload character and ignores the
rest). -/
theorem claim_C6_cex :
    guessLineStep "GUESS AB".toList = GuessReply.accept 'A' ∧
    ("GUESS AB".toList.drop 6).length ≠ 1 := by decide

/-- Claim C6 (amended): a line is accepted exactly when it starts with the
GUESS tag followed by a nonempty payload whose first character uppercases
into A..Z; the applied guess is that first character and any further
payload characters are ignored.  Every other line is answered with an ERR
that mutates nothing, and the letter eventually applied for the turn is
the one of the first accepted line, unaffected by preceding rejected
lines. -/
theorem claim_C6 :
    (∀ l c, guessLineStep l = GuessReply.accept c ↔
      (l.take 6 = "GUESS ".toList ∧ l.drop 6 ≠ [] ∧
        c = upch ((l.drop 6).headD ' ') ∧ 'A' ≤ c ∧ c ≤ 'Z')) ∧
    (∀ bad v rest c,
      (∀ l ∈ bad, guessLineStep l = GuessReply.errLetter ∨
        guessLineStep l = GuessReply.errLine) →
      guessLineStep v = GuessReply.accept c →
      guessReadLoop (bad ++ v :: rest) =
        ((bad.map guessLineStep) ++ [GuessReply.accept c], some c)) := by
  constructor
  · intro l c
    constructor
    · intro h
      unfold guessLineStep at h
      by_cases hpfx : l.take 6 = "GUESS ".toList ∧ l.drop 6 ≠ []
      · rw [if_pos hpfx] at h
        by_cases hrange : 'A' ≤ upch ((l.drop 6).headD ' ') ∧
            upch ((l.drop 6).headD ' ') ≤ 'Z'
        · rw [if_pos hrange] at h
          have hinj : upch ((l.drop 6).headD ' ') = c := by
            injection h
          rw [← hinj]
          exact ⟨hpfx.1, hpfx.2, rfl, hrange.1, hrange.2⟩
        · rw [if_neg hrange] at h
          simp at h
      · rw [if_neg hpfx] at h
        simp at h
    · rintro ⟨h1, h2, h3, h4, h5⟩
      unfold guessLineStep
      rw [if_pos ⟨h1, h2⟩, if_pos (by rw [← h3]; exact ⟨h4, h5⟩), ← h3]
  · intro bad v rest c hbad hv
    induction bad with
    | nil =>
        show guessReadLoop (v :: rest) = _
        rw [guessReadLoop_cons, hv]
        rfl
    | cons l ls ih =>
        have hcase := hbad l (List.mem_cons_self l ls)
        have ihx := ih (fun q hq => hbad q (List.mem_cons_of_mem l hq))
        rcases hcase with hcase | hcase
        · show guessReadLoop (l :: (ls ++ v :: rest)) = _
          rw [guessReadLoop_cons, hcase, ihx]
          simp [hcase]
        · show guessReadLoop (l :: (ls ++ v :: rest)) = _
          rw [guessReadLoop_cons, hcase, ihx]
          simp [hcase]

/-- Witness for claim C6 (amended): a malformed line and a non-letter
guess are both rejected, then the lowercase guess x is accepted as X and
becomes the applied letter. -/
theorem claim_C6_witness :
    guessReadLoop ["HELLO".toList, "GUESS 4".toList, "GUESS x".toList] =
      ([GuessReply.errLine, GuessReply.errLetter, GuessReply.accept 'X'], some 'X') := by
  have h2 := claim_C6.2 ["HELLO".toList, "GUESS 4".toList] ("GUESS x".toList) [] 'X'
    (by decide) (by decide)
  exact h2.trans (by decide)

theorem digitChar_val (d : Nat) (hd : d < 10) : (Nat.digitChar d).toNat = d + 48 := by
  interval_cases d <;> rfl

theorem digitChar_digit (d : Nat) (hd : d < 10) :
    '0' ≤ Nat.digitChar d ∧ Nat.digitChar d ≤ '9' := by
  interval_cases d <;> exact ⟨by decide, by decide⟩

theorem renderNatAux_digits (f : Nat) : ∀ (n : Nat), ∀ c ∈ renderNatAux f n,
    '0' ≤ c ∧ c ≤ '9' := by
  induction f with
  | zero =>
      intro n c hc
      simp [renderNatAux] at hc
  | succ f ih =>
      intro n c hc
      cases n with
      | zero => simp [renderNatAux] at hc
      | succ m =>
          simp only [renderNatAux, List.mem_cons] at hc
          rcases hc with h1 | h1
          · rw [h1]
            exact digitChar_digit _ (Nat.mod_lt _ (by norm_num))
          · exact ih _ c h1

theorem renderNatAux_parse (f : Nat) : ∀ (n : Nat), n ≤ f →
    (renderNatAux f n).foldr (fun c a => a * 10 + (c.toNat - 48)) 0 = n := by
  induction f with
  | zero =>
      intro n hn
      interval_cases n
      simp [renderNatAux]
  | succ f ih =>
      intro n hn
      cases n with
      | zero => simp [renderNatAux]
      | succ m =>
          have hdiv : (m + 1) / 10 ≤ f := by
            have := Nat.div_lt_self (Nat.succ_pos m) (by norm_num : 1 < 10)
            omega
          simp only [renderNatAux, List.foldr_cons]
          rw [ih _ hdiv, digitChar_val _ (Nat.mod_lt _ (by norm_num))]
          omega

theorem parse_reverse (L : List Char) :
    parseNatDigits L.reverse = L.foldr (fun c a => a * 10 + (c.toNat - 48)) 0 := by
  unfold parseNatDigits
  rw [List.foldl_reverse]

theorem renderNat_parse (n : Nat) : parseNatDigits (renderNat n) = n := by
  unfold renderNat
  by_cases h : n = 0
  · rw [if_pos h, h]
    rfl
  · rw [if_neg h, parse_reverse, renderNatAux_parse n n le_rfl]

theorem renderNat_digits (n : Nat) : ∀ c ∈ renderNat n, '0' ≤ c ∧ c ≤ '9' := by
  intro c hc
  unfold renderNat at hc
  by_cases h : n = 0
  · rw [if_pos h] at hc
    simp at hc
    rw [hc]
    exact ⟨by decide, by decide⟩
  · rw [if_neg h, List.mem_reverse] at hc
    exact renderNatAux_digits n n c hc

theorem renderNat_ne_nil (n : Nat) : renderNat n ≠ [] := by
  unfold renderNat
  by_cases h : n = 0
  · rw [if_pos h]
    simp
  · rw [if_neg h]
    have hpos : 0 < n := Nat.pos_of_ne_zero h
    cases hf : renderNatAux n n with
    | nil =>
        exfalso
        cases n with
        | zero => omega
        | succ m => simp [renderNatAux] at hf
    | cons a as => simp [hf]

theorem digit_notWS (c : Char) (h : '0' ≤ c ∧ c ≤ '9') : isWS c = false := by
  simp only [isWS, Bool.or_eq_false_iff, beq_eq_false_iff_ne]
  refine ⟨⟨⟨?_, ?_⟩, ?_⟩, ?_⟩ <;> intro he <;> rw [he] at h <;> revert h <;> decide

theorem renderNat_notWS (n : Nat) : ∀ c ∈ renderNat n, isWS c = false :=
  fun c hc => digit_notWS c (renderNat_digits n c hc)

theorem renderInt_ne_nil (i : Int) : renderInt i ≠ [] := by
  unfold renderInt
  by_cases h : i < 0
  · rw [if_pos h]
    simp
  · rw [if_neg h]
    exact renderNat_ne_nil _

theorem renderInt_notWS (i : Int) : ∀ c ∈ renderInt i, isWS c = false := by
  intro c hc
  unfold renderInt at hc
  by_cases h : i < 0
  · rw [if_pos h] at hc
    rcases List.mem_cons.mp hc with h1 | h1
    · rw [h1]
      decide
    · exact renderNat_notWS _ c h1
  · rw [if_neg h] at hc
    exact renderNat_notWS _ c hc

theorem parseIntTok_renderInt (i : Int) : parseIntTok (renderInt i) = some i := by
  by_cases h : i < 0
  · have hrw : renderInt i = '-' :: renderNat i.natAbs := by
      unfold renderInt
      rw [if_pos h]
    rw [hrw]
    have hall : ((renderNat i.natAbs).all fun x => decide ('0' ≤ x) && decide (x ≤ '9')) =
        true := by
      rw [List.all_eq_true]
      intro x hx
      have := renderNat_digits _ x hx
      simp [this.1, this.2]
    unfold parseIntTok
    dsimp only
    rw [if_pos rfl, if_pos ⟨renderNat_ne_nil _, hall⟩, renderNat_parse]
    simp only [Option.some.injEq]
    omega
  · have hrw : renderInt i = renderNat i.toNat := by
      unfold renderInt
      rw [if_neg h]
    obtain ⟨c, ds, hcd⟩ : ∃ c ds, renderNat i.toNat = c :: ds := by
      cases hre : renderNat i.toNat with
      | nil => exact absurd hre (renderNat_ne_nil _)
      | cons c ds => exact ⟨c, ds, rfl⟩
    rw [hrw, hcd]
    have hcdig := renderNat_digits i.toNat c (by rw [hcd]; exact List.mem_cons_self c ds)
    have hcne : ¬(c = '-') := by
      intro he
      rw [he] at hcdig
      exact absurd hcdig.1 (by decide)
    have hall : ((c :: ds).all fun x => decide ('0' ≤ x) && decide (x ≤ '9')) = true := by
      rw [List.all_eq_true]
      intro x hx
      have := renderNat_digits i.toNat x (by rw [hcd]; exact hx)
      simp [this.1, this.2]
    unfold parseIntTok
    dsimp only
    rw [if_neg hcne, if_pos hall, ← hcd, renderNat_parse]
    simp only [Option.some.injEq]
    omega

theorem tokenizeAux_token (tok : List Char) : ∀ (l acc : List Char),
    (∀ c ∈ tok, isWS c = false) →
    tokenizeAux (tok ++ l) acc = tokenizeAux l (tok.reverse ++ acc) := by
  induction tok with
  | nil =>
      intro l acc h
      rfl
  | cons c tk ih =>
      intro l acc h
      have hc := h c (List.mem_cons_self c tk)
      show tokenizeAux (c :: (tk ++ l)) acc = _
      simp only [tokenizeAux, hc, Bool.false_eq_true, if_false]
      rw [ih _ _ (fun q hq => h q (List.mem_cons_of_mem c hq))]
      simp [List.reverse_cons, List.append_assoc]

theorem tokenize_build (tok : List Char) (sep : Char) (rest : List Char)
    (h1 : tok ≠ []) (h2 : ∀ c ∈ tok, isWS c = false) (h3 : isWS sep = true) :
    tokenize (tok ++ sep :: rest) = tok :: tokenize rest := by
  unfold tokenize
  rw [tokenizeAux_token tok (sep :: rest) [] h2]
  simp only [List.append_nil]
  have hrne : ¬(tok.reverse = []) := by
    simpa [List.reverse_eq_nil_iff] using h1
  show tokenizeAux (sep :: rest) tok.reverse = _
  simp only [tokenizeAux, h3, if_true]
  rw [if_neg hrne, List.reverse_reverse]

theorem tokenize_entryLine (pid : Nat) (e : ScoreEntry) (rest : List Char)
    (hne : saveName pid e.name ≠ [])
    (hws : ∀ c ∈ saveName pid e.name, isWS c = false) :
    tokenize (entryLine pid e rest) =
      renderNat pid :: renderInt e.wins :: saveName pid e.name :: tokenize rest := by
  unfold entryLine
  rw [tokenize_build _ ' ' _ (renderNat_ne_nil pid) (renderNat_notWS pid) rfl,
    tokenize_build _ ' ' _ (renderInt_ne_nil e.wins) (renderInt_notWS e.wins) rfl,
    tokenize_build _ '\n' _ hne hws rfl]

/-- Counterexample to claim C7 as stated: the score-table round trip is
not exact for every table.  With the slot-1 name A B (a space inside, as
the free-text NAME command permits), the saved line 1 2 A B is read back
by the whitespace-driven fscanf loop as name A followed by a failed
numeric conversion on B, so the reloaded slot-1 name differs and slot 2
keeps its defaults instead of its saved wins. -/
theorem claim_C7_cex :
    (scores_load (some (scores_save cexTable))).e1.name ≠ cexTable.e1.name ∧
    (scores_load (some (scores_save cexTable))).e2.wins ≠ cexTable.e2.wins := by
  decide

/-- Claim C7 (amended): for every score table whose guesser names are
nonempty, contain no whitespace, and are at most 31 characters (the
invariants the table maintains for names set through the protocol without
spaces), saving it and loading the result yields exactly the saved wins
and names for slots 1 and 2. -/
theorem claim_C7 (t : ScoreTable)
    (h1ne : t.e1.name ≠ []) (h2ne : t.e2.name ≠ [])
    (h1ws : ∀ c ∈ t.e1.name, isWS c = false)
    (h2ws : ∀ c ∈ t.e2.name, isWS c = false)
    (h1len : t.e1.name.length ≤ 31) (h2len : t.e2.name.length ≤ 31) :
    (scores_load (some (scores_save t))).e1 = t.e1 ∧
    (scores_load (some (scores_save t))).e2 = t.e2 := by
  have hs1 : saveName 1 t.e1.name = t.e1.name := if_neg h1ne
  have hs2 : saveName 2 t.e2.name = t.e2.name := if_neg h2ne
  have hp1 : parseIntTok (renderNat 1) = some 1 := by decide
  have hp2 : parseIntTok (renderNat 2) = some 2 := by decide
  show (loadTokens (tokenize (scores_save t)) defaultTable).e1 = t.e1 ∧
    (loadTokens (tokenize (scores_save t)) defaultTable).e2 = t.e2
  unfold scores_save
  rw [tokenize_entryLine 1 t.e1 _ (by rw [hs1]; exact h1ne) (by rw [hs1]; exact h1ws),
    tokenize_entryLine 2 t.e2 [] (by rw [hs2]; exact h2ne) (by rw [hs2]; exact h2ws),
    hs1, hs2, show tokenize [] = ([] : List (List Char)) from rfl]
  simp only [loadTokens, hp1, hp2, parseIntTok_renderInt]
  rw [List.take_of_length_le h1len, List.take_of_length_le h2len]
  simp [storeEntry]

/-- Witness for claim C7 (amended): the default table (GuesserA and
GuesserB, zero wins) survives the save and reload round trip exactly. -/
theorem claim_C7_witness :
    (scores_load (some (scores_save defaultTable))).e1 = defaultTable.e1 ∧
    (scores_load (some (scores_save defaultTable))).e2 = defaultTable.e2 :=
  claim_C7 defaultTable (by decide) (by decide) (by decide) (by decide)
    (by decide) (by decide)

/-- Claim C8: at the end of a completed game the winner is the guesser
with the strictly higher per-game score (a draw when they are equal);
exactly the winning slot has its persistent wins counter incremented, by
exactly 1 and exactly once, with no increment to any slot on a draw; the
winning slot's stored name is refreshed from the live player name when
one is known; and the step rewrites the whole two-slot storage artifact
from the updated table. -/
theorem claim_C8 (s1 s2 : Nat) (l1 l2 : List Char) (t : ScoreTable) :
    (s1 > s2 →
      (endGameStep s1 s2 l1 l2 t).1.e1.wins = t.e1.wins + 1 ∧
      (endGameStep s1 s2 l1 l2 t).1.e1.name =
        (if l1 ≠ [] then l1.take 31 else t.e1.name) ∧
      (endGameStep s1 s2 l1 l2 t).1.e2 = t.e2 ∧
      (endGameStep s1 s2 l1 l2 t).1.e0 = t.e0) ∧
    (s2 > s1 →
      (endGameStep s1 s2 l1 l2 t).1.e2.wins = t.e2.wins + 1 ∧
      (endGameStep s1 s2 l1 l2 t).1.e2.name =
        (if l2 ≠ [] then l2.take 31 else t.e2.name) ∧
      (endGameStep s1 s2 l1 l2 t).1.e1 = t.e1 ∧
      (endGameStep s1 s2 l1 l2 t).1.e0 = t.e0) ∧
    (s1 = s2 → (endGameStep s1 s2 l1 l2 t).1 = t) ∧
    (endGameStep s1 s2 l1 l2 t).2 = scores_save (endGameStep s1 s2 l1 l2 t).1 := by
  have heg : (endGameStep s1 s2 l1 l2 t).1 = gameOverUpdate s1 s2 l1 l2 t := rfl
  rw [heg]
  refine ⟨?_, ?_, ?_, rfl⟩
  · intro h
    have hc : computeWinner s1 s2 = 1 := by
      unfold computeWinner
      rw [if_pos h]
    unfold gameOverUpdate
    rw [hc]
    exact ⟨rfl, rfl, rfl, rfl⟩
  · intro h
    have hc : computeWinner s1 s2 = 2 := by
      unfold computeWinner
      rw [if_neg (by omega), if_pos h]
    unfold gameOverUpdate
    rw [hc]
    exact ⟨rfl, rfl, rfl, rfl⟩
  · intro h
    have hc : computeWinner s1 s2 = 0 := by
      unfold computeWinner
      rw [if_neg (by omega), if_neg (by omega)]
    unfold gameOverUpdate
    rw [hc]

/-- Witness for claim C8: a 3-1 win by guesser 1 bumps exactly slot 1 of
the default table by one and refreshes its name, and a 2-2 draw changes
nothing. -/
theorem claim_C8_witness :
    (endGameStep 3 1 ("Ann".toList) ("Bob".toList) defaultTable).1.e1.wins =
      defaultTable.e1.wins + 1 ∧
    (endGameStep 3 1 ("Ann".toList) ("Bob".toList) defaultTable).1.e2 =
      defaultTable.e2 ∧
    (endGameStep 2 2 ("Ann".toList) ("Bob".toList) defaultTable).1 = defaultTable := by
  have h1 := claim_C8 3 1 ("Ann".toList) ("Bob".toList) defaultTable
  have h2 := claim_C8 2 2 ("Ann".toList) ("Bob".toList) defaultTable
  obtain ⟨w1, -, w3, -⟩ := h1.1 (by omega)
  exact ⟨w1, w3, h2.2.2.1 rfl⟩
